import Mathlib

/-!
Verification development for the blink-search interactive launcher
(`src/main.rs`, `src/config.rs`).  The definitions below are a shallow
embedding of the program's core: the path normalizer entry point
(`--normalize-paths`, `main.rs` lines 241-255), the interactive filter
driver (`fzf_open`), the candidate source (`read_location_from_cache` /
`read_location_with_fd`) and the location resolver (`main`, lines 286-302).
Bytes are modelled as `Nat` (< 256), paths as `String` with POSIX
`Path::join` semantics, subprocess behaviour (the lines the filter prints
and its exit code) as explicit inputs, and the two reachable `panic!`
sites of the driver as an explicit `DriverPanic` error value.
-/

set_option maxRecDepth 8000

-- Decidable equality for `Except`, to let concrete driver outcomes be
-- checked by `decide`.
deriving instance DecidableEq for Except

namespace Blink

/-- Unicode `White_Space` test, mirroring Rust `char::is_whitespace`
(used by `str::trim`). -/
def rustIsWhitespace (c : Char) : Bool :=
  decide (c.toNat ∈ ([0x9, 0xA, 0xB, 0xC, 0xD, 0x20, 0x85, 0xA0, 0x1680,
                      0x2028, 0x2029, 0x202F, 0x205F, 0x3000] : List Nat)
          ∨ (0x2000 ≤ c.toNat ∧ c.toNat ≤ 0x200A))

/-- Unicode `Cc` (control) test, mirroring Rust `char::is_control`. -/
def rustIsControl (c : Char) : Bool :=
  decide (c.toNat ≤ 0x1F ∨ (0x7F ≤ c.toNat ∧ c.toNat ≤ 0x9F))

/-- Rust `str::trim`: drop `White_Space` characters from both ends. -/
def rustTrim (l : List Char) : List Char :=
  ((l.dropWhile rustIsWhitespace).reverse.dropWhile rustIsWhitespace).reverse

/-- Rust `str::trim` packaged on `String`. -/
def rustTrimStr (s : String) : String :=
  String.mk (rustTrim s.data)

/-- Rust `str::trim_start_matches` specialised to a two-character pattern:
the pattern is removed from the front REPEATEDLY, not just once. -/
def trimStartMarker (c1 c2 : Char) : List Char → List Char
  | a :: b :: rest =>
    if a = c1 ∧ b = c2 then trimStartMarker c1 c2 rest else a :: b :: rest
  | l => l

/-- Does the list start with the two-character marker `c1 c2`? -/
def startsWithMarker (c1 c2 : Char) (l : List Char) : Bool :=
  match l with
  | a :: b :: _ => decide (a = c1 ∧ b = c2)
  | _ => false

/-- The Unicode replacement character U+FFFD. -/
def replChar : Char := Char.ofNat 0xFFFD

/-- The per-character control replacement of the normalizer:
`.chars().map(|c| if c.is_control() { char::REPLACEMENT_CHARACTER } else { c })`. -/
def replaceControls (l : List Char) : List Char :=
  l.map (fun c => if rustIsControl c then replChar else c)

/-- `String::from_utf8_lossy`: permissive UTF-8 decoding.  Each maximal
invalid subsequence (following the error lengths of
`core::str::run_utf8_validation`) becomes one U+FFFD; an incomplete
sequence at the end of input also becomes one U+FFFD. -/
def utf8Lossy : List Nat → List Char
  | [] => []
  | b1 :: rest =>
    if b1 < 0x80 then
      Char.ofNat b1 :: utf8Lossy rest
    else if b1 < 0xC2 then
      replChar :: utf8Lossy rest
    else if b1 ≤ 0xDF then
      match rest with
      | [] => [replChar]
      | b2 :: rest2 =>
        if 0x80 ≤ b2 ∧ b2 ≤ 0xBF then
          Char.ofNat ((b1 - 0xC0) * 0x40 + (b2 - 0x80)) :: utf8Lossy rest2
        else
          replChar :: utf8Lossy (b2 :: rest2)
    else if b1 ≤ 0xEF then
      match rest with
      | [] => [replChar]
      | b2 :: rest2 =>
        if (b1 = 0xE0 ∧ 0xA0 ≤ b2 ∧ b2 ≤ 0xBF) ∨ (b1 = 0xED ∧ 0x80 ≤ b2 ∧ b2 ≤ 0x9F)
            ∨ (b1 ≠ 0xE0 ∧ b1 ≠ 0xED ∧ 0x80 ≤ b2 ∧ b2 ≤ 0xBF) then
          match rest2 with
          | [] => [replChar]
          | b3 :: rest3 =>
            if 0x80 ≤ b3 ∧ b3 ≤ 0xBF then
              Char.ofNat ((b1 - 0xE0) * 0x1000 + (b2 - 0x80) * 0x40 + (b3 - 0x80))
                :: utf8Lossy rest3
            else
              replChar :: utf8Lossy (b3 :: rest3)
        else
          replChar :: utf8Lossy (b2 :: rest2)
    else if b1 ≤ 0xF4 then
      match rest with
      | [] => [replChar]
      | b2 :: rest2 =>
        if (b1 = 0xF0 ∧ 0x90 ≤ b2 ∧ b2 ≤ 0xBF) ∨ (b1 = 0xF4 ∧ 0x80 ≤ b2 ∧ b2 ≤ 0x8F)
            ∨ (b1 ≠ 0xF0 ∧ b1 ≠ 0xF4 ∧ 0x80 ≤ b2 ∧ b2 ≤ 0xBF) then
          match rest2 with
          | [] => [replChar]
          | b3 :: rest3 =>
            if 0x80 ≤ b3 ∧ b3 ≤ 0xBF then
              match rest3 with
              | [] => [replChar]
              | b4 :: rest4 =>
                if 0x80 ≤ b4 ∧ b4 ≤ 0xBF then
                  Char.ofNat ((b1 - 0xF0) * 0x40000 + (b2 - 0x80) * 0x1000
                      + (b3 - 0x80) * 0x40 + (b4 - 0x80)) :: utf8Lossy rest4
                else
                  replChar :: utf8Lossy (b4 :: rest4)
            else
              replChar :: utf8Lossy (b3 :: rest3)
        else
          replChar :: utf8Lossy (b2 :: rest2)
    else
      replChar :: utf8Lossy rest

/-- Standard UTF-8 encoding of one scalar value. -/
def utf8EncodeChar (c : Char) : List Nat :=
  let v := c.toNat
  if v < 0x80 then [v]
  else if v < 0x800 then [0xC0 + v / 0x40, 0x80 + v % 0x40]
  else if v < 0x10000 then [0xE0 + v / 0x1000, 0x80 + v / 0x40 % 0x40, 0x80 + v % 0x40]
  else [0xF0 + v / 0x40000, 0x80 + v / 0x1000 % 0x40, 0x80 + v / 0x40 % 0x40, 0x80 + v % 0x40]

/-- UTF-8 encoding of a character list. -/
def encodeChars (l : List Char) : List Nat :=
  l.foldr (fun c acc => utf8EncodeChar c ++ acc) []

/-- UTF-8 encoding of a string (how Rust lays a `String` out in bytes). -/
def utf8Encode (s : String) : List Nat :=
  encodeChars s.data

/-- Split a byte list at every occurrence of the byte `d`; yields one
(possibly empty) segment more than there are delimiters. -/
def splitByte (d : Nat) : List Nat → List (List Nat)
  | [] => [[]]
  | b :: rest =>
    if b = d then [] :: splitByte d rest
    else
      match splitByte d rest with
      | [] => [[b]]
      | r :: rs => (b :: r) :: rs

/-- `std::io::BufRead::split(d)`, the record iterator actually used by the
`--normalize-paths` entry point: segments between delimiter bytes, where a
single trailing delimiter does not produce a final empty record (EOF after
the delimiter simply ends the iterator), but every other empty segment IS
produced as an (empty) record. -/
def stdSplit (d : Nat) (l : List Nat) : List (List Nat) :=
  if l = [] then []
  else if l.getLast? = some d then (splitByte d l).dropLast
  else splitByte d l

/-- The per-record processing of the `--normalize-paths` entry point:
`String::from_utf8_lossy(..).trim().trim_start_matches("./")
.trim_start_matches(".\\").chars().map(control -> U+FFFD).collect()`,
then printed via `Path::new(&s).to_string_lossy()` (identity on the
already-valid string under POSIX path semantics). -/
def processRecord (bytes : List Nat) : String :=
  String.mk (replaceControls
    (trimStartMarker '.' '\\' (trimStartMarker '.' '/' (rustTrim (utf8Lossy bytes)))))

/-- The whole standalone normalization entry point: the list of lines
printed (each `println!` emits one line) for a given delimiter byte and
input byte stream. -/
def normalizeLines (delim : Nat) (input : List Nat) : List String :=
  (stdSplit delim input).map processRecord

/-- The byte stream produced by printing the given lines, one `println!`
each (line bytes followed by a newline byte). -/
def renderLines (lines : List String) : List Nat :=
  lines.foldr (fun l acc => utf8Encode l ++ 10 :: acc) []

/-- POSIX `Path::join`: an absolute right operand replaces the base;
otherwise a separator is inserted unless the base is empty or already
ends with one. -/
def pathJoin (base rel : String) : String :=
  if rel.data.head? = some '/' then rel
  else if base.data = [] ∨ base.data.getLast? = some '/' then
    String.mk (base.data ++ rel.data)
  else
    String.mk (base.data ++ '/' :: rel.data)

/-- The decoded outcome of one filter invocation (`enum OpenAction`). -/
inductive OpenAction
  | open (path : String)
  | menu
deriving DecidableEq

/-- The two reachable panic sites of the filter driver's output loop:
the `assert!(action.is_none())` on a second output line, and the byte
slice `s[1..s.len()-1]` whose bounds are out of order when the trimmed
line is the single character `"`. -/
inductive DriverPanic
  | assertSecondLine
  | sliceOutOfBounds
deriving DecidableEq

/-- Does the list start with the character `c`? (Rust `str::starts_with(char)`.) -/
def startsWithChar (c : Char) (l : List Char) : Bool :=
  match l with
  | a :: _ => decide (a = c)
  | [] => false

/-- Does the list end with the character `c`? (Rust `str::ends_with(char)`.) -/
def endsWithChar (c : Char) (l : List Char) : Bool :=
  startsWithChar c l.reverse

/-- Rust `str::replace("\\\\", "\\")`: replace each non-overlapping
occurrence of a doubled backslash, scanning left to right, with a single
backslash. -/
def unescapeBackslashes : List Char → List Char
  | '\\' :: '\\' :: rest => '\\' :: unescapeBackslashes rest
  | c :: rest => c :: unescapeBackslashes rest
  | [] => []

/-- The selection branch of `fzf_open`'s line decoding: trim the line; if
it both starts and ends with a double quote, strip the first and last byte
(`s[1..s.len()-1]` — a panic when the trimmed line is just `"`) and
un-escape doubled backslashes; otherwise use the trimmed line as is. -/
def decodeSelection (line : String) : Except DriverPanic String :=
  if startsWithChar '"' (rustTrim line.data) && endsWithChar '"' (rustTrim line.data) then
    if (rustTrim line.data).length < 2 then .error .sliceOutOfBounds
    else .ok (String.mk (unescapeBackslashes (((rustTrim line.data).drop 1).dropLast)))
  else .ok (String.mk (rustTrim line.data))

/-- Total version of the selection decoding, defined on every line (what
`decodeSelection` returns whenever it does not panic). -/
def rustSelection (line : String) : String :=
  if startsWithChar '"' (rustTrim line.data) && endsWithChar '"' (rustTrim line.data) then
    String.mk (unescapeBackslashes (((rustTrim line.data).drop 1).dropLast))
  else String.mk (rustTrim line.data)

/-- Decoding of one line of filter output inside `fzf_open`'s loop:
`TAB` is the menu sentinel, `EDIT_CONFIG` opens the configuration file,
anything else is a selected relative path joined onto the location root. -/
def decodeFzfLine (locPath cfgPath : String) (line : String) : Except DriverPanic OpenAction :=
  if line = "TAB" then .ok .menu
  else if line = "EDIT_CONFIG" then .ok (.open cfgPath)
  else (decodeSelection line).map (fun sel => .open (pathJoin locPath sel))

/-- `fzf_open`'s output-reading loop: `assert!(action.is_none())` before
decoding each line, so a line arriving after an action was already decoded
is a fatal assertion panic. -/
def fzfReadLines (locPath cfgPath : String) :
    List String → Option OpenAction → Except DriverPanic (Option OpenAction)
  | [], action => .ok action
  | l :: ls, action =>
    match action with
    | some _ => .error .assertSecondLine
    | none =>
      match decodeFzfLine locPath cfgPath l with
      | .error p => .error p
      | .ok a => fzfReadLines locPath cfgPath ls (some a)

/-- `fzf_open`'s final `match (ret, action)`, written with the same arm
order as the source: `(130, Some(Menu))`, then `(_, Some(Open(p)))`, then
the catch-all error. -/
def fzfReconcile (ret : Int) (action : Option OpenAction) : Except String OpenAction :=
  match action with
  | some .menu =>
    if ret = 130 then .ok .menu else .error ("fzf exited with code " ++ toString ret)
  | some (.open p) => .ok (.open p)
  | none => .error ("fzf exited with code " ++ toString ret)

/-- The full outcome of `fzf_open`'s output handling given the lines the
filter printed and its exit code: either a panic in the read loop, or the
reconciled `Result<OpenAction>`. -/
def fzfOpenResult (locPath cfgPath : String) (lines : List String) (exitCode : Int) :
    Except DriverPanic (Except String OpenAction) :=
  (fzfReadLines locPath cfgPath lines none).map (fzfReconcile exitCode)

/-- `enum LocationMode` from `config.rs`. -/
inductive LocationMode
  | files
  | folders
deriving DecidableEq

/-- `struct Location` from `config.rs`. -/
structure Location where
  path : String
  mode : LocationMode
  cache_file : Option String

/-- The result of producing a candidate stream: either the process exits
fatally (missing cache file, `exit(-1)`) or a normalized record stream is
obtained. -/
inductive SourceResult
  | fatalExit (code : Int)
  | stream (records : List String)
deriving DecidableEq

/-- `read_location_from_cache`: open the cache file (the file system is
modelled as a partial map from path to content bytes); a missing file logs
and calls `exit(-1)`; an existing file is piped through the normalizer
with the `Newline` separator. -/
def readLocationFromCache (fs : String → Option (List Nat)) (p : String) : SourceResult :=
  match fs p with
  | none => .fatalExit (-1)
  | some bytes => .stream (normalizeLines 10 bytes)

/-- `read_location_with_fd`: the enumerator's NUL-delimited output piped
through the normalizer with the `Null` separator. -/
def readLocationWithFd (fdOutput : List Nat) : SourceResult :=
  .stream (normalizeLines 0 fdOutput)

/-- A whole `fzf_open` run: either the process exited before the filter
subprocess was ever spawned, or the filter ran on the candidate stream. -/
inductive FzfOpenRun
  | fatalBeforeFilter (code : Int)
  | filterRun (candidates : List String) (outcome : Except DriverPanic (Except String OpenAction))

/-- `fzf_open` end to end: build the candidate stream (cache file if
`location.cache_file` is set, else the enumerator), and only if that
succeeds spawn the filter and decode its output and exit code. -/
def fzfOpenModel (fs : String → Option (List Nat)) (fdOutput : List Nat)
    (loc : Location) (cfgPath : String) (fzfLines : List String) (exitCode : Int) :
    FzfOpenRun :=
  match (match loc.cache_file with
         | some cf => readLocationFromCache fs (pathJoin loc.path cf)
         | none => readLocationWithFd fdOutput) with
  | .fatalExit c => .fatalBeforeFilter c
  | .stream cands => .filterRun cands (fzfOpenResult loc.path cfgPath fzfLines exitCode)

/-- The outcome of resolving a requested location name (`main`, lines
286-302). -/
inductive Resolution
  | chosen (name : String)
  | submenu (query : String)
  | fatalError (msg : String)
  | panicEmptyConfig
deriving DecidableEq

/-- Is `needle` a contiguous substring of `hay`? (Rust `str::contains`.) -/
def listInfix (needle : List Char) : List Char → Bool
  | [] => needle.isEmpty
  | a :: t => needle.isPrefixOf (a :: t) || listInfix needle t

/-- Rust `String::to_lowercase` (character-wise; agrees with the Unicode
mapping on the ASCII location names the resolver compares). -/
def lowerStr (s : String) : String :=
  String.mk (s.data.map Char.toLower)

/-- The resolver's filter predicate:
`k.to_lowercase().contains(&loc.to_lowercase())`. -/
def lowerContains (name query : String) : Bool :=
  listInfix (lowerStr query).data (lowerStr name).data

/-- Location name resolution from `main`: no name → first configured name;
exact key match → that name; otherwise filter by case-insensitive
substring and dispatch on the first two iterator elements. -/
def resolveLocation (names : List String) (req : Option String) : Resolution :=
  match req with
  | none =>
    match names with
    | [] => .panicEmptyConfig
    | n :: _ => .chosen n
  | some loc =>
    if names.contains loc then .chosen loc
    else
      match names.filter (fun k => lowerContains k loc) with
      | [] => .fatalError "No location found"
      | [n] => .chosen n
      | _ => .submenu loc

/-- `location_to_id`: delete every character outside `[a-zA-Z0-9]`, then
lower-case the remainder. -/
def isAsciiAlnumChar (c : Char) : Bool :=
  decide (('a' ≤ c ∧ c ≤ 'z') ∨ ('A' ≤ c ∧ c ≤ 'Z') ∨ ('0' ≤ c ∧ c ≤ '9'))

/-- Rust `location_to_id` from `main.rs`. -/
def locationToId (s : String) : String :=
  String.mk ((s.data.filter isAsciiAlnumChar).map Char.toLower)

/-- The history file path `fzf_open` passes to the filter:
`base_dir / history-id.txt` where `id` is `location_to_id` of the name. -/
def historyFile (base : String) (locationName : String) : String :=
  pathJoin base ("history-" ++ locationToId locationName ++ ".txt")

/-- Modelled from the spec's words for comparison (claim C5): strip
EXACTLY ONE leading `./` or `.\` marker, where the source strips them
repeatedly. -/
def stripOneMarker (l : List Char) : List Char :=
  match l with
  | '.' :: '/' :: rest => rest
  | '.' :: '\\' :: rest => rest
  | l => l

/-- The record pipeline as the spec describes it (claim C5): identical to
`processRecord` except that only one leading marker is stripped. -/
def processRecordOnce (bytes : List Nat) : String :=
  String.mk (replaceControls (stripOneMarker (rustTrim (utf8Lossy bytes))))

/-- A line is `clean` when it is a fixed point of every per-record
transformation of the normalizer: already trimmed, no leading `./` or
`.\` marker, and free of control characters. -/
def cleanLine (s : String) : Prop :=
  rustTrim s.data = s.data ∧
  trimStartMarker '.' '/' s.data = s.data ∧
  trimStartMarker '.' '\\' s.data = s.data ∧
  ∀ c ∈ s.data, rustIsControl c = false

instance (s : String) : Decidable (cleanLine s) := by
  unfold cleanLine
  infer_instance

/-- The byte stream `b"a/b\0./c\\d\0\0"` from the spec's normalizer
example. -/
def exampleStream : List Nat := [97, 47, 98, 0, 46, 47, 99, 92, 100, 0, 0]

/-! ### Helper lemmas -/

/-- When the trimmed line is not the lone double quote, the selection
decoding cannot hit the slice panic and agrees with `rustSelection`. -/
theorem decodeSelection_ok (line : String) (h : rustTrim line.data ≠ ['"']) :
    decodeSelection line = .ok (rustSelection line) := by
  unfold decodeSelection rustSelection
  by_cases hq : (startsWithChar '"' (rustTrim line.data)
      && endsWithChar '"' (rustTrim line.data)) = true
  · rw [if_pos hq, if_pos hq]
    have hlen : ¬ (rustTrim line.data).length < 2 := by
      rcases ht : rustTrim line.data with _ | ⟨a, _ | ⟨b, r⟩⟩
      · rw [ht] at hq; simp [startsWithChar] at hq
      · exfalso
        rw [ht] at hq
        simp [startsWithChar, endsWithChar] at hq
        rw [ht] at h
        exact h (by rw [hq])
      · simp
    rw [if_neg hlen]
  · rw [if_neg hq, if_neg hq]

/-- The repeated marker stripping of `trim_start_matches` leaves no
occurrence of the marker at the front of its result. -/
theorem trimStartMarker_no_marker (c1 c2 : Char) :
    ∀ l : List Char, startsWithMarker c1 c2 (trimStartMarker c1 c2 l) = false
  | [] => by simp [trimStartMarker, startsWithMarker]
  | [a] => by simp [trimStartMarker, startsWithMarker]
  | a :: b :: rest => by
    by_cases h : a = c1 ∧ b = c2
    · have ih := trimStartMarker_no_marker c1 c2 rest
      simpa [trimStartMarker, h] using ih
    · simp [trimStartMarker, h, startsWithMarker]

/-- `Path::join` with the same base is injective on relative operands. -/
theorem pathJoin_right_cancel (base : String) {x y : String}
    (hx : x.data.head? ≠ some '/') (hy : y.data.head? ≠ some '/')
    (h : pathJoin base x = pathJoin base y) : x = y := by
  unfold pathJoin at h
  rw [if_neg hx, if_neg hy] at h
  by_cases hb : base.data = [] ∨ base.data.getLast? = some '/'
  · rw [if_pos hb, if_pos hb] at h
    have h2 : base.data ++ x.data = base.data ++ y.data := congrArg String.data h
    exact String.ext (List.append_cancel_left h2)
  · rw [if_neg hb, if_neg hb] at h
    have h2 : base.data ++ '/' :: x.data = base.data ++ '/' :: y.data := congrArg String.data h
    have h3 := List.append_cancel_left h2
    have h4 : x.data = y.data := by injection h3
    exact String.ext h4

/-- Every history file name starts with the letter `h`, hence is a
relative path operand for `Path::join`. -/
theorem history_name_head (s : String) :
    ("history-" ++ s ++ ".txt").data.head? = some 'h' := by
  have h1 : "history-".data = 'h' :: "istory-".data := by decide
  simp [String.data_append, h1]

/-! ### C1: exit-code reconciliation -/

/-- C1 counterexample: with no decoded line at all, the user-abort exit
code 130 is NOT treated as valid — `fzf_open` returns the error
`"fzf exited with code 130"`, contradicting the claim that this case is
not an error. -/
theorem reconcile_abort_without_action_is_error :
    fzfReconcile 130 none = .error "fzf exited with code 130" := by decide

/-- C1 (amended): a decoded `Open(p)` wins for every exit code; exit code
130 with a decoded `Menu` yields `Ok(Menu)`; and with no decoded action at
all EVERY exit code — 130 included — yields the error
`"fzf exited with code N"`. -/
theorem fzf_reconciliation_table :
    (∀ (ec : Int) (p : String), fzfReconcile ec (some (.open p)) = .ok (.open p)) ∧
    fzfReconcile 130 (some .menu) = .ok .menu ∧
    (∀ ec : Int, fzfReconcile ec none = .error ("fzf exited with code " ++ toString ec)) :=
  ⟨fun _ _ => rfl, rfl, fun _ => rfl⟩

/-! ### C2: per-line decoding of filter output -/

/-- C2: `TAB` decodes to `Menu`, `EDIT_CONFIG` to `Open(config path)`, the
quoted line with a doubled backslash un-escapes as claimed, and every
other line whose trimmed form is not the lone double quote decodes to
`Open(location.path join selection)`; the lone double-quote line, however,
hits the out-of-bounds slice `s[1..0]` instead of producing an action. -/
theorem fzf_line_decoding :
    (∀ locPath cfgPath : String, decodeFzfLine locPath cfgPath "TAB" = .ok .menu) ∧
    (∀ locPath cfgPath : String,
      decodeFzfLine locPath cfgPath "EDIT_CONFIG" = .ok (.open cfgPath)) ∧
    decodeFzfLine "/base" "/cfg" "\"a\\\\b\"" = .ok (.open (pathJoin "/base" "a\\b")) ∧
    (∀ locPath cfgPath line : String, line ≠ "TAB" → line ≠ "EDIT_CONFIG" →
      rustTrim line.data ≠ ['"'] →
      decodeFzfLine locPath cfgPath line = .ok (.open (pathJoin locPath (rustSelection line)))) ∧
    decodeFzfLine "/base" "/cfg" "\"" = .error .sliceOutOfBounds := by
  refine ⟨fun _ _ => by simp [decodeFzfLine], fun _ _ => by simp [decodeFzfLine],
    by decide, ?_, by decide⟩
  intro locPath cfgPath line h1 h2 h3
  unfold decodeFzfLine
  rw [if_neg h1, if_neg h2, decodeSelection_ok line h3]
  rfl

/-- C2 witness: a plain selection line decodes to the root-joined path. -/
theorem fzf_line_decoding_witness :
    decodeFzfLine "/base" "/cfg" "docs/report.pdf" =
      .ok (.open (pathJoin "/base" (rustSelection "docs/report.pdf"))) :=
  fzf_line_decoding.2.2.2.1 "/base" "/cfg" "docs/report.pdf"
    (by decide) (by decide) (by decide)

/-! ### C3: location name resolution -/

/-- C3: no requested name picks the first configured location; an exact
match wins; otherwise the case-insensitive substring filter decides —
zero matches is the fatal `"No location found"` error, one match is
chosen, two or more trigger the submenu seeded with the query; and the
`home`/`host` examples behave as the spec states. -/
theorem location_resolution :
    (∀ (n : String) (ns : List String), resolveLocation (n :: ns) none = .chosen n) ∧
    (∀ (names : List String) (loc : String), names.contains loc = true →
      resolveLocation names (some loc) = .chosen loc) ∧
    (∀ (names : List String) (loc : String), names.contains loc = false →
      (names.filter (fun k => lowerContains k loc) = [] →
        resolveLocation names (some loc) = .fatalError "No location found") ∧
      (∀ n, names.filter (fun k => lowerContains k loc) = [n] →
        resolveLocation names (some loc) = .chosen n) ∧
      (2 ≤ (names.filter (fun k => lowerContains k loc)).length →
        resolveLocation names (some loc) = .submenu loc)) ∧
    resolveLocation ["home", "host"] (some "ho") = .submenu "ho" ∧
    resolveLocation ["home", "host"] (some "home") = .chosen "home" ∧
    resolveLocation ["home", "host"] (some "zzz") = .fatalError "No location found" := by
  refine ⟨fun n ns => rfl, ?_, ?_, by decide, by decide, by decide⟩
  · intro names loc h
    have hm : loc ∈ names := by simpa using h
    simp [resolveLocation, hm]
  · intro names loc h
    have hm : loc ∉ names := by simpa using h
    refine ⟨?_, ?_, ?_⟩
    · intro hf; simp [resolveLocation, hm, hf]
    · intro n hf; simp [resolveLocation, hm, hf]
    · intro hlen
      rcases hfe : names.filter (fun k => lowerContains k loc) with _ | ⟨a, _ | ⟨b, t⟩⟩
      · rw [hfe] at hlen; simp at hlen
      · rw [hfe] at hlen; simp at hlen
      · simp [resolveLocation, hm, hfe]

/-- C3 witness: a unique case-insensitive substring match is chosen, and
an exact match is returned directly. -/
theorem location_resolution_witness :
    resolveLocation ["home", "host"] (some "omE") = .chosen "home" ∧
    resolveLocation ["alpha"] (some "alpha") = .chosen "alpha" :=
  ⟨(location_resolution.2.2.1 ["home", "host"] "omE" (by decide)).2.1 "home" (by decide),
   location_resolution.2.1 ["alpha"] "alpha" (by decide)⟩

/-! ### C6: one meaningful line per run -/

/-- C6: once an action has been decoded, any further line makes the
driver's `assert!(action.is_none())` fail — a fatal internal error —
so the first decoded action is never silently overwritten or ignored;
a single decodable line is accepted. -/
theorem single_line_protocol :
    (∀ (locPath cfgPath l : String) (ls : List String) (a : OpenAction),
      fzfReadLines locPath cfgPath (l :: ls) (some a) = .error .assertSecondLine) ∧
    (∀ (locPath cfgPath l1 l2 : String) (rest : List String) (a : OpenAction),
      decodeFzfLine locPath cfgPath l1 = .ok a →
      fzfReadLines locPath cfgPath (l1 :: l2 :: rest) none = .error .assertSecondLine) ∧
    (∀ (locPath cfgPath l : String) (a : OpenAction),
      decodeFzfLine locPath cfgPath l = .ok a →
      fzfReadLines locPath cfgPath [l] none = .ok (some a)) := by
  refine ⟨fun _ _ _ _ _ => rfl, ?_, ?_⟩
  · intro locPath cfgPath l1 l2 rest a h
    simp [fzfReadLines, h]
  · intro locPath cfgPath l a h
    simp [fzfReadLines, h]

/-- C6 witness: two output lines abort the run even though the first one
was a valid sentinel, while that line alone succeeds. -/
theorem single_line_protocol_witness :
    fzfReadLines "/b" "/c" ["TAB", "x"] none = .error .assertSecondLine ∧
    fzfReadLines "/b" "/c" ["TAB"] none = .ok (some .menu) :=
  ⟨single_line_protocol.2.1 "/b" "/c" "TAB" "x" [] .menu (by decide),
   single_line_protocol.2.2 "/b" "/c" "TAB" .menu (by decide)⟩

/-! ### C7: missing cache file is fatal -/

/-- C7: when `location.cache_file` is set and the file at
`location.path/cache_file` is missing, the run exits fatally with the
non-zero code -1 before the filter subprocess is ever spawned. -/
theorem missing_cache_file_fatal :
    ∀ (fs : String → Option (List Nat)) (fdOutput : List Nat) (loc : Location)
      (cfgPath : String) (lines : List String) (ec : Int) (cf : String),
      loc.cache_file = some cf →
      fs (pathJoin loc.path cf) = none →
      fzfOpenModel fs fdOutput loc cfgPath lines ec = .fatalBeforeFilter (-1) ∧
        ((-1 : Int) ≠ 0) := by
  intro fs fdOutput loc cfgPath lines ec cf hcf hfs
  refine ⟨?_, by decide⟩
  simp [fzfOpenModel, hcf, readLocationFromCache, hfs]

/-- C7 witness: a concrete location whose cache file is absent from the
file system exits fatally without running the filter. -/
theorem missing_cache_file_fatal_witness :
    fzfOpenModel (fun _ => none) [] ⟨"/srv", .files, some "cache.txt"⟩ "/cfg" [] 0 =
      .fatalBeforeFilter (-1) :=
  (missing_cache_file_fatal (fun _ => none) [] ⟨"/srv", .files, some "cache.txt"⟩
    "/cfg" [] 0 "cache.txt" rfl rfl).1

/-! ### C8: history file independence -/

/-- C8 counterexample: the distinct location names `Home` and `home`
derive the SAME history file path, so distinct names do not always keep
independent history. -/
theorem history_id_collision :
    ("Home" : String) ≠ "home" ∧
    historyFile "/cfg" "Home" = historyFile "/cfg" "home" := by decide

/-- C8 (amended): the derivation is deterministic (lower-case, strip
non-alphanumerics), and two location names get distinct history files
exactly when their derived ids differ — names that only differ in case or
in non-alphanumeric characters collide. -/
theorem history_distinct_of_id_distinct :
    locationToId "Home" = "home" ∧
    locationToId "my NAS-2" = "mynas2" ∧
    (∀ base n1 n2 : String, locationToId n1 ≠ locationToId n2 →
      historyFile base n1 ≠ historyFile base n2) := by
  refine ⟨by decide, by decide, ?_⟩
  intro base n1 n2 hne heq
  apply hne
  have hx := history_name_head (locationToId n1)
  have hy := history_name_head (locationToId n2)
  have h := pathJoin_right_cancel base
    (x := "history-" ++ locationToId n1 ++ ".txt")
    (y := "history-" ++ locationToId n2 ++ ".txt")
    (by rw [hx]; decide) (by rw [hy]; decide) heq
  have hd := congrArg String.data h
  simp [String.data_append] at hd
  exact String.ext hd

/-- C8 amended witness: names with different ids get different history
files. -/
theorem history_distinct_of_id_distinct_witness :
    historyFile "/cfg" "home" ≠ historyFile "/cfg" "nas" :=
  history_distinct_of_id_distinct.2.2 "/cfg" "home" "nas" (by decide)

/-! ### C10: the lone double-quote line -/

/-- C10: the one-character line `"` satisfies both the starts-with-quote
and ends-with-quote tests, and instead of producing an `Open` action the
driver's read loop dies on the out-of-order byte slice `s[1..0]` — the
selection decoding is NOT total. -/
theorem lone_quote_line_panics :
    fzfReadLines "/base" "/cfg" ["\""] none = .error .sliceOutOfBounds ∧
    startsWithChar '"' (rustTrim "\"".data) = true ∧
    endsWithChar '"' (rustTrim "\"".data) = true := by decide

/-! ### Splitting lemmas shared by the normalizer claims -/

/-- Splitting a delimiter-free list yields that single segment. -/
theorem splitByte_no_delim (d : Nat) :
    ∀ l : List Nat, d ∉ l → splitByte d l = [l]
  | [], _ => rfl
  | x :: t, h => by
    have hx : ¬ x = d := fun he => h (by simp [he])
    have ih := splitByte_no_delim d t (fun hm => h (List.mem_cons_of_mem x hm))
    simp [splitByte, hx, ih]

/-- Splitting peels off a delimiter-free segment before a delimiter. -/
theorem splitByte_append_delim (d : Nat) (ys : List Nat) :
    ∀ xs : List Nat, d ∉ xs → splitByte d (xs ++ d :: ys) = xs :: splitByte d ys
  | [], _ => by simp [splitByte]
  | x :: xs, h => by
    have hx : ¬ x = d := fun he => h (by simp [he])
    have ih := splitByte_append_delim d ys xs (fun hm => h (List.mem_cons_of_mem x hm))
    simp [splitByte, hx, ih]

/-! ### C4: delimiter runs at the record layer -/

/-- C4 counterexample: with delimiter NUL, the spec's example input
`b"a/b\0./c\\d\0\0"` produces THREE output lines — `a/b`, `c\d` and a
trailing blank line — because the entry point splits with the standard
single-delimiter iterator, which turns the second NUL of the run into an
empty record that is printed as a blank line. -/
theorem normalize_emits_trailing_blank :
    normalizeLines 0 exampleStream = ["a/b", "c\\d", ""] ∧
    (normalizeLines 0 exampleStream).length ≠ 2 := by decide

/-- C4 (amended): a record may be terminated by a SINGLE delimiter byte,
which is consumed without emitting a blank line; each additional
delimiter in a run yields an empty record that IS emitted as a blank
line, as the example stream shows. -/
theorem normalize_delimiter_runs :
    (∀ (d : Nat) (rec : List Nat), d ∉ rec → rec ≠ [] →
      stdSplit d (rec ++ [d]) = [rec]) ∧
    normalizeLines 0 exampleStream = ["a/b", "c\\d", ""] := by
  refine ⟨?_, by decide⟩
  intro d rec hd _
  have hne : rec ++ [d] ≠ [] := by simp
  have hlast : (rec ++ [d]).getLast? = some d := List.getLast?_concat rec
  have hsb : splitByte d (rec ++ [d]) = [rec, []] := by
    have := splitByte_append_delim d [] rec hd
    simpa [splitByte] using this
  unfold stdSplit
  rw [if_neg hne, if_pos hlast, hsb]
  rfl

/-- C4 amended witness: a single trailing delimiter does not produce a
blank record. -/
theorem normalize_delimiter_runs_witness :
    stdSplit 0 ([97] ++ [0]) = [[97]] :=
  normalize_delimiter_runs.1 0 [97] (by decide) (by decide)

/-! ### C5: the per-record pipeline -/

/-- C5 counterexample: the source strips leading `./` markers REPEATEDLY
(`trim_start_matches`), so the record `././a` normalizes to `a`, while
the claimed strip-exactly-one pipeline would produce `./a`. -/
theorem record_strips_all_markers :
    processRecord (utf8Encode "././a") = "a" ∧
    processRecordOnce (utf8Encode "././a") = "./a" ∧
    ("a" : String) ≠ "./a" := by decide

/-- C5 (amended): each record is decoded permissively (an invalid byte
becomes U+FFFD, never an error), trimmed, stripped of EVERY leading `./`
repetition and then of every leading `.\` repetition, and every remaining
control character is replaced by U+FFFD — a length-preserving step, so the
record is never truncated or dropped — leaving output free of control
characters. -/
theorem record_pipeline :
    (∀ l : List Char, (replaceControls l).length = l.length) ∧
    (∀ (bytes : List Nat) (c : Char), c ∈ (processRecord bytes).data →
      rustIsControl c = false) ∧
    (∀ l : List Char, startsWithMarker '.' '/' (trimStartMarker '.' '/' l) = false) ∧
    processRecord [0xFF, 97] = String.mk [replChar, 'a'] ∧
    processRecord (utf8Encode "././a") = "a" ∧
    processRecord (utf8Encode ".\\.\\x") = "x" := by
  refine ⟨fun l => List.length_map l _, ?_, trimStartMarker_no_marker '.' '/',
    by decide, by decide, by decide⟩
  intro bytes c hc
  have hc2 : c ∈ replaceControls
      (trimStartMarker '.' '\\' (trimStartMarker '.' '/' (rustTrim (utf8Lossy bytes)))) := hc
  obtain ⟨a, _, rfl⟩ := List.mem_map.1 hc2
  by_cases ha : rustIsControl a = true
  · rw [if_pos ha]; decide
  · rw [if_neg ha]
    exact Bool.not_eq_true _ ▸ ha

/-- C5 amended witness: the output of the pipeline on a concrete record
contains no control character. -/
theorem record_pipeline_witness :
    rustIsControl 'a' = false :=
  record_pipeline.2.1 [0xFF, 97] 'a' (by decide)

/-! ### UTF-8 round trip (for re-normalization) -/

/-- Decoding step: a one-byte (ASCII) sequence. -/
theorem utf8Lossy_one (b1 : Nat) (rest : List Nat) (h : b1 < 0x80) :
    utf8Lossy (b1 :: rest) = Char.ofNat b1 :: utf8Lossy rest := by
  rw [utf8Lossy.eq_def]
  dsimp only
  rw [if_pos h]

/-- Decoding step: a well-formed two-byte sequence. -/
theorem utf8Lossy_two (b1 b2 : Nat) (rest : List Nat)
    (h1 : 0xC2 ≤ b1) (h2 : b1 ≤ 0xDF) (h3 : 0x80 ≤ b2 ∧ b2 ≤ 0xBF) :
    utf8Lossy (b1 :: b2 :: rest)
      = Char.ofNat ((b1 - 0xC0) * 0x40 + (b2 - 0x80)) :: utf8Lossy rest := by
  rw [utf8Lossy.eq_def]
  dsimp only
  rw [if_neg (by omega), if_neg (by omega), if_pos h2, if_pos h3]

/-- Decoding step: a well-formed three-byte sequence. -/
theorem utf8Lossy_three (b1 b2 b3 : Nat) (rest : List Nat)
    (h1 : 0xE0 ≤ b1) (h2 : b1 ≤ 0xEF)
    (hs : (b1 = 0xE0 ∧ 0xA0 ≤ b2 ∧ b2 ≤ 0xBF) ∨ (b1 = 0xED ∧ 0x80 ≤ b2 ∧ b2 ≤ 0x9F)
      ∨ (b1 ≠ 0xE0 ∧ b1 ≠ 0xED ∧ 0x80 ≤ b2 ∧ b2 ≤ 0xBF))
    (h3 : 0x80 ≤ b3 ∧ b3 ≤ 0xBF) :
    utf8Lossy (b1 :: b2 :: b3 :: rest)
      = Char.ofNat ((b1 - 0xE0) * 0x1000 + (b2 - 0x80) * 0x40 + (b3 - 0x80))
          :: utf8Lossy rest := by
  rw [utf8Lossy.eq_def]
  dsimp only
  rw [if_neg (by omega), if_neg (by omega), if_neg (by omega), if_pos h2, if_pos hs,
    if_pos h3]

/-- Decoding step: a well-formed four-byte sequence. -/
theorem utf8Lossy_four (b1 b2 b3 b4 : Nat) (rest : List Nat)
    (h1 : 0xF0 ≤ b1) (h2 : b1 ≤ 0xF4)
    (hs : (b1 = 0xF0 ∧ 0x90 ≤ b2 ∧ b2 ≤ 0xBF) ∨ (b1 = 0xF4 ∧ 0x80 ≤ b2 ∧ b2 ≤ 0x8F)
      ∨ (b1 ≠ 0xF0 ∧ b1 ≠ 0xF4 ∧ 0x80 ≤ b2 ∧ b2 ≤ 0xBF))
    (h3 : 0x80 ≤ b3 ∧ b3 ≤ 0xBF) (h4 : 0x80 ≤ b4 ∧ b4 ≤ 0xBF) :
    utf8Lossy (b1 :: b2 :: b3 :: b4 :: rest)
      = Char.ofNat ((b1 - 0xF0) * 0x40000 + (b2 - 0x80) * 0x1000
          + (b3 - 0x80) * 0x40 + (b4 - 0x80)) :: utf8Lossy rest := by
  rw [utf8Lossy.eq_def]
  dsimp only
  rw [if_neg (by omega), if_neg (by omega), if_neg (by omega), if_neg (by omega),
    if_pos h2, if_pos hs, if_pos h3, if_pos h4]

/-- Decoding the UTF-8 encoding of one scalar value consumes exactly its
bytes and returns the character. -/
theorem utf8Lossy_encodeChar (c : Char) (rest : List Nat) :
    utf8Lossy (utf8EncodeChar c ++ rest) = c :: utf8Lossy rest := by
  have hv : c.toNat < 0xd800 ∨ (0xdfff < c.toNat ∧ c.toNat < 0x110000) := c.valid
  by_cases h1 : c.toNat < 0x80
  · have henc : utf8EncodeChar c = [c.toNat] := by simp [utf8EncodeChar, h1]
    rw [henc]
    simp only [List.cons_append, List.nil_append]
    rw [utf8Lossy_one _ _ h1, Char.ofNat_toNat]
  · by_cases h2 : c.toNat < 0x800
    · have henc : utf8EncodeChar c
          = [0xC0 + c.toNat / 0x40, 0x80 + c.toNat % 0x40] := by
        simp [utf8EncodeChar, h1, h2]
      rw [henc]
      simp only [List.cons_append, List.nil_append]
      rw [utf8Lossy_two _ _ _ (by omega) (by omega) (by omega),
        show (0xC0 + c.toNat / 0x40 - 0xC0) * 0x40 + (0x80 + c.toNat % 0x40 - 0x80)
          = c.toNat by omega,
        Char.ofNat_toNat]
    · by_cases h3 : c.toNat < 0x10000
      · have henc : utf8EncodeChar c
            = [0xE0 + c.toNat / 0x1000, 0x80 + c.toNat / 0x40 % 0x40,
               0x80 + c.toNat % 0x40] := by
          simp [utf8EncodeChar, h1, h2, h3]
        rw [henc]
        simp only [List.cons_append, List.nil_append]
        rw [utf8Lossy_three _ _ _ _ (by omega) (by omega) (by omega) (by omega),
          show (0xE0 + c.toNat / 0x1000 - 0xE0) * 0x1000
              + (0x80 + c.toNat / 0x40 % 0x40 - 0x80) * 0x40
              + (0x80 + c.toNat % 0x40 - 0x80) = c.toNat by omega,
          Char.ofNat_toNat]
      · have henc : utf8EncodeChar c
            = [0xF0 + c.toNat / 0x40000, 0x80 + c.toNat / 0x1000 % 0x40,
               0x80 + c.toNat / 0x40 % 0x40, 0x80 + c.toNat % 0x40] := by
          simp [utf8EncodeChar, h1, h2, h3]
        rw [henc]
        simp only [List.cons_append, List.nil_append]
        rw [utf8Lossy_four _ _ _ _ _ (by omega) (by omega) (by omega) (by omega)
            (by omega),
          show (0xF0 + c.toNat / 0x40000 - 0xF0) * 0x40000
              + (0x80 + c.toNat / 0x1000 % 0x40 - 0x80) * 0x1000
              + (0x80 + c.toNat / 0x40 % 0x40 - 0x80) * 0x40
              + (0x80 + c.toNat % 0x40 - 0x80) = c.toNat by omega,
          Char.ofNat_toNat]

/-- Decoding the UTF-8 encoding of any character list is the identity. -/
theorem utf8Lossy_encodeChars :
    ∀ l : List Char, utf8Lossy (encodeChars l) = l
  | [] => rfl
  | c :: cs => by
    show utf8Lossy (utf8EncodeChar c ++ encodeChars cs) = c :: cs
    rw [utf8Lossy_encodeChar, utf8Lossy_encodeChars cs]

/-- A byte below 0x80 that differs from a character's scalar value does
not occur in that character's UTF-8 encoding. -/
theorem not_mem_encodeChar_of_ne (c : Char) (b : Nat) (hb : b < 0x80)
    (h : c.toNat ≠ b) : b ∉ utf8EncodeChar c := by
  intro hmem
  simp only [utf8EncodeChar] at hmem
  split at hmem
  · simp at hmem; omega
  · split at hmem
    · simp at hmem; omega
    · split at hmem
      · simp at hmem; omega
      · simp at hmem; omega

/-- The encoding of a control-free character list contains no newline
byte. -/
theorem newline_not_mem_encodeChars :
    ∀ l : List Char, (∀ c ∈ l, rustIsControl c = false) → 10 ∉ encodeChars l
  | [], _ => by simp [encodeChars]
  | c :: t, h => by
    have hc : rustIsControl c = false := h c (by simp)
    have hcn : c.toNat ≠ 10 := by
      intro he
      simp [rustIsControl, he] at hc
    have ih := newline_not_mem_encodeChars t (fun x hx => h x (by simp [hx]))
    show 10 ∉ utf8EncodeChar c ++ encodeChars t
    intro hmem
    rcases List.mem_append.1 hmem with hm | hm
    · exact not_mem_encodeChar_of_ne c 10 (by omega) hcn hm
    · exact ih hm

/-! ### Rendering and re-splitting -/

/-- One printed line contributes its bytes plus a newline. -/
theorem renderLines_cons (s : String) (rest : List String) :
    renderLines (s :: rest) = utf8Encode s ++ 10 :: renderLines rest := rfl

/-- A non-empty rendered stream ends with a newline byte. -/
theorem renderLines_ends_newline :
    ∀ lines : List String, lines ≠ [] → ∃ pre, renderLines lines = pre ++ [10]
  | [], h => absurd rfl h
  | [s], _ => ⟨utf8Encode s, rfl⟩
  | s :: s2 :: rest, _ => by
    obtain ⟨pre, hp⟩ := renderLines_ends_newline (s2 :: rest) (by simp)
    exact ⟨utf8Encode s ++ 10 :: pre, by rw [renderLines_cons, hp]; simp⟩

/-- Splitting a rendered stream on newlines recovers the encoded lines
(plus the final empty segment after the last newline). -/
theorem splitByte_renderLines :
    ∀ lines : List String, (∀ s ∈ lines, 10 ∉ utf8Encode s) →
      splitByte 10 (renderLines lines) = lines.map utf8Encode ++ [[]]
  | [], _ => rfl
  | s :: rest, h => by
    have ih := splitByte_renderLines rest (fun x hx => h x (by simp [hx]))
    rw [renderLines_cons,
      splitByte_append_delim 10 (renderLines rest) (utf8Encode s) (h s (by simp)), ih]
    simp

/-- The standard split iterator recovers exactly the encoded lines from a
rendered stream: the trailing newline produces no blank record. -/
theorem stdSplit_renderLines (lines : List String)
    (h : ∀ s ∈ lines, 10 ∉ utf8Encode s) :
    stdSplit 10 (renderLines lines) = lines.map utf8Encode := by
  cases lines with
  | nil => rfl
  | cons s rest =>
    have hne : renderLines (s :: rest) ≠ [] := by
      rw [renderLines_cons]; simp
    obtain ⟨pre, hp⟩ := renderLines_ends_newline (s :: rest) (by simp)
    have hlast : (renderLines (s :: rest)).getLast? = some 10 := by
      rw [hp]; exact List.getLast?_concat pre
    unfold stdSplit
    rw [if_neg hne, if_pos hlast, splitByte_renderLines (s :: rest) h,
      List.dropLast_concat]

/-- Replacing controls in a control-free list is the identity. -/
theorem replaceControls_id :
    ∀ l : List Char, (∀ c ∈ l, rustIsControl c = false) → replaceControls l = l
  | [], _ => rfl
  | c :: t, h => by
    have hc : rustIsControl c = false := h c (by simp)
    have ih := replaceControls_id t (fun x hx => h x (by simp [hx]))
    show (if rustIsControl c then replChar else c) :: replaceControls t = c :: t
    rw [if_neg (by simp [hc]), ih]

/-- The record pipeline is the identity on the encoding of a clean line. -/
theorem processRecord_encode (s : String) (h : cleanLine s) :
    processRecord (utf8Encode s) = s := by
  obtain ⟨h1, h2, h3, h4⟩ := h
  unfold processRecord utf8Encode
  rw [utf8Lossy_encodeChars, h1, h2, h3, replaceControls_id s.data h4]

/-! ### C9: idempotence of the normalizer -/

/-- C9 counterexample: the record `./ x` normalizes to the line ` x`
(stripping `./` exposes a leading space), and re-normalizing that
newline-delimited output trims the space away, yielding `x` — so
re-normalizing an already-normalized stream does NOT always give an
identical stream. -/
theorem renormalize_changes_stream :
    normalizeLines 10 (utf8Encode "./ x") = [" x"] ∧
    normalizeLines 10 (renderLines (normalizeLines 10 (utf8Encode "./ x"))) = ["x"] ∧
    (["x"] : List String) ≠ [" x"] := by decide

/-- C9 (amended): re-normalizing a newline-delimited stream is the
identity PROVIDED every line is clean — already trimmed, free of control
characters, and with no leading `./` or `.\` marker.  Normalized output
always satisfies the control-character condition but can violate the
other two (prefix stripping can expose whitespace or a fresh marker), so
idempotence holds only for such clean streams. -/
theorem renormalize_fixed_of_clean :
    ∀ lines : List String, (∀ s ∈ lines, cleanLine s) →
      normalizeLines 10 (renderLines lines) = lines := by
  intro lines h
  have henc : ∀ s ∈ lines, 10 ∉ utf8Encode s := fun s hs =>
    newline_not_mem_encodeChars s.data ((h s hs).2.2.2)
  unfold normalizeLines
  rw [stdSplit_renderLines lines henc, List.map_map]
  have hid : ∀ s ∈ lines, (processRecord ∘ utf8Encode) s = id s := fun s hs =>
    processRecord_encode s (h s hs)
  rw [List.map_congr_left hid, List.map_id]

/-- C9 amended witness: a clean two-line stream is unchanged by
re-normalization. -/
theorem renormalize_fixed_of_clean_witness :
    normalizeLines 10 (renderLines ["a/b", "c"]) = ["a/b", "c"] :=
  renormalize_fixed_of_clean ["a/b", "c"] (by decide)

end Blink
